import Mathlib

/-!
Verification of the opportunity-evaluation engine of the Ultraflashloanbot
repository against its natural-language specification.

The Python source is shallowly embedded: pure computations become Lean
functions over ℤ/ℚ (Python ints are unbounded, so ℤ is exact; Python float
and Decimal arithmetic is modelled by exact rationals); the network-driven
price fan-out is a parameter (the list of per-source prices collected, or an
oracle function standing for get_price_multi_source's environment-dependent
results); Python floor division is Int.fdiv; Python list.sort() is the
stable ascending sort List.insertionSort.
-/

set_option maxRecDepth 10000

namespace ArbCalc

/-- Token addresses from services/ArbitrageCalculator.py (module constants). -/
def WBNB : String := "0xbb4CdB9CBd36B01bD1cBaEBF2De08d9173bc095c"

def USDT : String := "0x55d398326f99059fF775485246999027B3197955"

def USDC : String := "0x8AC76a51cc950d9822D68b83fE1Ad004bD0C0b1E"

def BUSD : String := "0xe9e7CEA3DedcA5984780Bafc599bD69ADd087D56"

def FDUSD : String := "0xc5f0f7b66764F6ec8C8Dff7BA683102295E16409"

def CAKE : String := "0x0E09FaBB73Bd3Ade0a17ECC321fD13a19e81cE82"

def BTCB : String := "0x7130d2A12B9BCbFAe4f2634d864A1Ee1Ce3EAd9c"

/-- Result dictionary of get_price_multi_source.  The early no-valid-price
return in the source carries only the first three keys; the remaining fields
are modelled as 0 there (they are never read by callers on that branch). -/
structure PriceData where
  price : ℤ
  confidence : ℚ
  manipulation_detected : Bool
  sources : ℕ
  deriving Repr, DecidableEq

/-- Python list.sort(): stable ascending in-place sort, modelled functionally. -/
def pySort (l : List ℤ) : List ℤ := l.insertionSort (· ≤ ·)

/-- Python max(a, b) on numbers, written so the kernel can evaluate it on ℚ. -/
def pyMax (a b : ℚ) : ℚ := if a < b then b else a

/-- Python min(a, b) on numbers, written so the kernel can evaluate it on ℚ. -/
def pyMin (a b : ℚ) : ℚ := if b < a then b else a

theorem pyMax_eq (a b : ℚ) : pyMax a b = max a b := by
  unfold pyMax
  rcases lt_or_le a b with h | h
  · simp [h, max_eq_right h.le]
  · simp [not_lt.mpr h, max_eq_left h]

theorem pyMin_eq (a b : ℚ) : pyMin a b = min a b := by
  unfold pyMin
  rcases lt_or_le b a with h | h
  · simp [h, min_eq_right h.le]
  · simp [not_lt.mpr h, min_eq_left h]

/-- Python abs on numbers, written so the kernel can evaluate it on ℚ. -/
def pyAbs (q : ℚ) : ℚ := if q < 0 then -q else q

theorem pyAbs_eq (q : ℚ) : pyAbs q = |q| := by
  unfold pyAbs
  rcases lt_or_le q 0 with h | h
  · simp [h, abs_of_neg h]
  · simp [not_lt.mpr h, abs_of_nonneg h]

/-- Deviation of one source price from the median: abs(price - median) / median
(float division in the source, exact ℚ here). -/
def deviationFrom (median p : ℤ) : ℚ := pyAbs ((p : ℚ) - (median : ℚ)) / (median : ℚ)

/-- Median selection of get_price_multi_source (lines 178-179): sort the
valid prices ascending and take the element at index len // 2. -/
def multi_median (valid : List ℤ) : ℤ := (pySort valid).getD (valid.length / 2) 0

/-- Loop of lines 182-187 restricted to the valid (positive) prices: the
maximal relative deviation of any source price from the median. -/
def max_deviation (valid : List ℤ) (median : ℤ) : ℚ :=
  valid.foldl (fun acc p => pyMax acc (deviationFrom median p)) 0

/-- Embedding of services/ArbitrageCalculator.py get_price_multi_source,
lines 173-199: the aggregation applied to the per-DEX prices collected from
the environment (a failed fetch contributes 0, filtered out as not > 0).
Sorts the valid prices, takes the element at index len/2 as median, computes
the maximal relative deviation from the median, flags manipulation when any
deviation exceeds 0.05, and sets confidence = 1 - min(max_deviation, 1). -/
def get_price_multi_source (rawPrices : List ℤ) : PriceData :=
  let valid := rawPrices.filter (fun p => decide (0 < p))
  if valid = [] then
    { price := 0, confidence := 0, manipulation_detected := false, sources := 0 }
  else
    let median := multi_median valid
    let manip := valid.any (fun p => decide ((5 : ℚ)/100 < deviationFrom median p))
    { price := median
      confidence := 1 - pyMin (max_deviation valid median) 1
      manipulation_detected := manip
      sources := valid.length }

/-- Decimal.quantize(Decimal("0.01")) with the default ROUND_HALF_EVEN:
round to the nearest multiple of 0.01, ties to the even cent. -/
def quantizeCents (x : ℚ) : ℚ :=
  let f : ℤ := Rat.floor (x * 100)
  let r : ℚ := x * 100 - (f : ℚ)
  let n : ℤ := if (1 : ℚ)/2 < r then f + 1 else if r < 1/2 then f else
    if f % 2 = 0 then f else f + 1
  (n : ℚ) / 100

/-- Python int(x) on a Decimal or float: truncation toward zero. -/
def pyInt (q : ℚ) : ℤ := if 0 ≤ q then Rat.floor q else -(Rat.floor (-q))

/-- Environment abstraction: what get_price_multi_source(token_in, token_out,
amount_in) returns for given arguments.  The network fan-out makes the real
function depend on live DEX state, so evaluations of calculate_multi_hop_profit
and calculate_optimal_position_size are parameterised by this oracle. -/
def Oracle : Type := String → String → ℤ → PriceData

/-- Embedding of estimate_pair_liquidity (lines 137-149): a static table of
pair liquidities with a $1M default. -/
def estimate_pair_liquidity (a b : String) : ℚ :=
  if a = USDT ∧ b = WBNB then 5000000
  else if a = USDC ∧ b = WBNB then 3000000
  else if a = BUSD ∧ b = WBNB then 2000000
  else if a = BTCB ∧ b = WBNB then 10000000
  else if a = CAKE ∧ b = WBNB then 8000000
  else 1000000

/-- Dictionary shape produced by generate_multi_hop_paths. -/
structure PathInfo where
  name : String
  path : List String
  start : String
  hops : ℕ
  deriving Repr, DecidableEq

/-- Adjacent pairs (path[i], path[i+1]) walked by the loops over
range(len(path) - 1). -/
def pathPairs (path : List String) : List (String × String) := path.zip path.tail

/-- Running minimum of the per-pair liquidity estimates along the path
(lines 92-100; the initial float(inf) means the first pair seeds the fold).
The value for a path with no adjacent pair is never used: the caller returns
the conservative fallback first. -/
def min_liquidity_usd (path : List String) : ℚ :=
  match pathPairs path with
  | [] => 0
  | q :: rest =>
    rest.foldl (fun acc pr => pyMin acc (estimate_pair_liquidity pr.1 pr.2))
      (estimate_pair_liquidity q.1 q.2)

/-- Category-driven cap fraction of lines 109-114: 2% of liquidity for the
volatile bases, 5% for the three stablecoin bases, 3% otherwise. -/
def max_position_pct (start : String) : ℚ :=
  if start = BTCB ∨ start = CAKE then 2/100
  else if start = USDT ∨ start = USDC ∨ start = BUSD then 5/100
  else 3/100

/-- Embedding of calculate_optimal_position_size (lines 86-135).  The source's
try/except around estimate_pair_liquidity cannot fire (the lookup is total),
and min_liquidity stays float(inf) exactly when the path has no adjacent pair;
total_liquidity is accumulated but never read, so it is dropped here. -/
def calculate_optimal_position_size (g : Oracle) (info : PathInfo) : ℚ :=
  if pathPairs info.path = [] then 5000
  else
    let max_position_usd : ℚ :=
      if info.start = USDT ∨ info.start = USDC ∨ info.start = BUSD ∨ info.start = FDUSD then
        min_liquidity_usd info.path * max_position_pct info.start
      else
        let token_price := g info.start USDT (10^18)
        if 0 < token_price.price then
          min_liquidity_usd info.path * max_position_pct info.start * (token_price.price : ℚ) / 10^18
        else 10000
    quantizeCents (pyMax (pyMin max_position_usd 50000) 1000)

/-- Line 231 of the source: fee_rate = 9975 // 10000, Python floor division
on ints, kept exactly as written. -/
def fee_rate : ℤ := Int.fdiv 9975 10000

/-- Result dictionary of calculate_multi_hop_profit.  The early rejection
returns carry only profit/confidence/manipulation_risk; the other keys are
absent in the source, and downstream reads result.get("hops", 3), so the
early value of hops is modelled as 3 and the unread fields as 0. -/
structure HopResult where
  profit : ℚ
  confidence : ℚ
  manipulation_risk : Bool
  sources_used : ℕ
  hops : ℕ
  total_fees_usd : ℚ
  deriving Repr, DecidableEq

/-- Early rejection dictionary of calculate_multi_hop_profit. -/
def rejectedResult : HopResult :=
  { profit := 0, confidence := 0, manipulation_risk := true
    sources_used := 0, hops := 3, total_fees_usd := 0 }

/-- Hop loop of calculate_multi_hop_profit (lines 233-242): carries
(amount_in, manipulation risk, running min confidence, accumulated fees)
across the adjacent pairs of the path; a zero price aborts the walk. -/
def hop_walk (g : Oracle) : List String → ℤ → Bool → ℚ → ℤ → Option (ℤ × Bool × ℚ × ℤ)
  | a :: b :: rest, amountIn, risk, conf, fees =>
    let pd := g a b amountIn
    if pd.price = 0 then none
    else
      let nextAmount := Int.fdiv (pd.price * fee_rate) 10000
      hop_walk g (b :: rest) nextAmount (risk || pd.manipulation_detected)
        (pyMin conf pd.confidence) (fees + (pd.price - nextAmount))
  | _, amountIn, risk, conf, fees => some (amountIn, risk, conf, fees)

/-- Minimum of a list of source counts, as Python min() over a nonempty list. -/
def minSources : List ℕ → ℕ
  | [] => 0
  | s :: rest => rest.foldl Nat.min s

/-- Starting-amount conversion of calculate_multi_hop_profit (lines 217-224):
a stablecoin start converts directly to wei; any other start is priced
through the oracle, rejecting a zero price or confidence below 0.7. -/
def startAmountWei (g : Oracle) (start : String) (flash_amount_usd : ℚ) : Option ℤ :=
  if start = USDT ∨ start = USDC ∨ start = BUSD ∨ start = FDUSD then
    some (pyInt (flash_amount_usd * 10^18))
  else
    let pd := g USDT start (10^18)
    if pd.price = 0 ∨ pd.confidence < 7/10 then none
    else some (pyInt (flash_amount_usd * 10^18 * 10^18 / (pd.price : ℚ)))

/-- Oracle-dependent part of calculate_multi_hop_profit (lines 217-254,
everything before the hop-count penalty): none on each of the three early
rejections, otherwise the pre-penalty profit, risk flag, confidence, source
counts, and accumulated fees.  The hops field is not consulted here. -/
def multi_hop_eval (g : Oracle) (path : List String) (start : String)
    (flash_amount_usd : ℚ) : Option (ℚ × Bool × ℚ × List ℕ × ℤ) :=
  match startAmountWei g start flash_amount_usd with
  | none => none
  | some amt0 =>
    match hop_walk g path amt0 false 1 0 with
    | none => none
    | some (amtF, risk, conf, fees) =>
      let finalPd := g (path.getLastD "") USDT amtF
      if finalPd.price = 0 ∨ finalPd.confidence < 7/10 then none
      else
        some ((finalPd.price : ℚ) / 10^18 - flash_amount_usd,
          risk || finalPd.manipulation_detected,
          pyMin conf finalPd.confidence,
          ((pathPairs path).map (fun pr => (g pr.1 pr.2 (10^18)).sources))
            ++ [finalPd.sources],
          fees)

/-- Lines 256-267: apply the hop-count confidence penalty (0.1 per hop
beyond 3, floored at 0) and build the result dictionary. -/
def finishResult (hops : ℕ) (profit_usd : ℚ) (total_risk : Bool)
    (total_confidence : ℚ) (srcs : List ℕ) (fees : ℤ) : HopResult :=
  let hop_penalty : ℚ := pyMax 0 ((hops : ℚ) - 3) * (1/10)
  { profit := quantizeCents profit_usd
    confidence := pyMax 0 (total_confidence - hop_penalty)
    manipulation_risk := total_risk
    sources_used := minSources srcs
    hops := hops
    total_fees_usd := (fees : ℚ) / 10^18 }

/-- Embedding of calculate_multi_hop_profit (lines 206-267).  flash = none
models the flash_amount_usd=None default, which triggers dynamic sizing. -/
def calculate_multi_hop_profit (g : Oracle) (info : PathInfo) (flash : Option ℚ) : HopResult :=
  let flash_amount_usd := match flash with
    | some a => a
    | none => calculate_optimal_position_size g info
  match multi_hop_eval g info.path info.start flash_amount_usd with
  | none => rejectedResult
  | some (profit_usd, total_risk, total_confidence, srcs, fees) =>
    finishResult info.hops profit_usd total_risk total_confidence srcs fees

/-- Opportunity dictionary appended by scan_all_paths (lines 287-294). -/
structure Opportunity where
  path : PathInfo
  profit : ℚ
  confidence : ℚ
  sources : ℕ
  hops : ℕ
  fees : ℚ
  deriving Repr, DecidableEq

/-- Complexity-scaled profit floor of scan_all_paths (line 283). -/
def profit_threshold (hops : ℕ) : ℚ := 30 + ((hops : ℚ) - 3) * 10

/-- Gate of scan_all_paths (line 286): profit above the hop-scaled threshold,
confidence above 0.75, and no manipulation risk. -/
def passes_gate (r : HopResult) : Bool :=
  decide (profit_threshold r.hops < r.profit) &&
    decide ((3 : ℚ)/4 < r.confidence) && !r.manipulation_risk

/-- Opportunity dictionary built from a path and its evaluation result. -/
def mkOpportunity (p : PathInfo) (r : HopResult) : Opportunity :=
  { path := p, profit := r.profit, confidence := r.confidence
    sources := r.sources_used, hops := r.hops, fees := r.total_fees_usd }

/-- Profit efficiency used as the descending sort key (line 301). -/
def efficiency (o : Opportunity) : ℚ := o.profit / (o.hops : ℚ)

/-- Descending-by-efficiency relation of the ranker's sort. -/
def effGE (a b : Opportunity) : Prop := efficiency b ≤ efficiency a

instance : DecidableRel effGE := fun a b => inferInstanceAs (Decidable (_ ≤ _))

/-- Core of scan_all_paths (lines 273-301) as a function of the evaluated
(path, result) pairs: keep results passing the gate, build the opportunity
dictionaries in path order, and stable-sort them by profit-per-hop descending
(list.sort with key profit/hops and reverse=True).  The printing and the
best-profit bookkeeping of the source do not affect this list. -/
def scan_opportunities (entries : List (PathInfo × HopResult)) : List Opportunity :=
  ((entries.filter (fun e => passes_gate e.2)).map
    (fun e => mkOpportunity e.1 e.2)).insertionSort effGE

/-- scan_all_paths' opportunities list for a set of candidate paths (TRI_PATHS
in the source) under a price oracle: each path is evaluated with dynamic
sizing (flash_amount_usd=None) and the results are gated and ranked. -/
def scan_all_paths (g : Oracle) (paths : List PathInfo) : List Opportunity :=
  scan_opportunities (paths.map (fun p => (p, calculate_multi_hop_profit g p none)))

end ArbCalc

namespace Aggregator

/-- Python list.sort() on float prices, modelled on exact rationals. -/
def pySortQ (l : List ℚ) : List ℚ := l.insertionSort (· ≤ ·)

/-- Median computation of services/PriceAggregator.py get_token_price
(lines 429-432): sort ascending; middle element for an odd count, average of
the two middle elements for an even count. -/
def get_token_price_median (prices_only : List ℚ) : ℚ :=
  let sorted := pySortQ prices_only
  let mid := prices_only.length / 2
  if prices_only.length % 2 = 1 then sorted.getD mid 0
  else (sorted.getD (mid - 1) 0 + sorted.getD mid 0) / 2

/-- Embedding of get_token_price (lines 403-438) over the per-source fetch
results (None for a failed source, as collected by asyncio.gather): quorum
check against min_source_count, then the median, then the external
validate_price call (network-dependent, passed as a predicate). -/
def get_token_price (validate : ℚ → Bool) (prices : List (Option ℚ))
    (min_source_count : ℕ) : Option ℚ :=
  let prices_only := prices.filterMap (fun p => p)
  if prices_only.length < min_source_count then none
  else if prices_only = [] then none
  else
    let median_price := get_token_price_median prices_only
    if validate median_price then some median_price else none

/-- Discrete confidence ladder of _calculate_confidence. -/
inductive ConfLevel where
  | low
  | medium
  | high
  | very_high
  deriving Repr, DecidableEq

/-- Numeric rank of a ladder tier, for comparing confidence levels. -/
def confRank : ConfLevel → ℕ
  | .low => 0
  | .medium => 1
  | .high => 2
  | .very_high => 3

/-- Python max() over a nonempty list (the [] case cannot be reached where
this is used, since the caller returns early on an empty list). -/
def listMaxQ : List ℚ → ℚ
  | [] => 0
  | a :: rest => rest.foldl ArbCalc.pyMax a

/-- Python min() over a nonempty list. -/
def listMinQ : List ℚ → ℚ
  | [] => 0
  | a :: rest => rest.foldl ArbCalc.pyMin a

/-- Price spread of _calculate_confidence (lines 724-726):
(max - min) / price, relative to the consensus price passed in. -/
def spreadOf (valid_prices : List ℚ) (price : ℚ) : ℚ :=
  (listMaxQ valid_prices - listMinQ valid_prices) / price

/-- Embedding of _calculate_confidence (lines 714-736) over the valid prices
collected from all sources and the consensus price passed in: below the
source quorum the level is low; otherwise the tier is chosen from the spread
(max - min) / price jointly with the source count.  min_source_count is a
parameter: the attribute self.min_source_count is never assigned in the
source's constructor, so its intended value is configuration. -/
def calculate_confidence (valid_prices : List ℚ) (price : ℚ)
    (min_source_count : ℕ) : ConfLevel :=
  if valid_prices.length < min_source_count then .low
  else
    let spread := spreadOf valid_prices price
    if spread ≤ 1/100 ∧ 4 ≤ valid_prices.length then .very_high
    else if spread ≤ 2/100 ∧ 3 ≤ valid_prices.length then .high
    else if spread ≤ 5/100 ∧ 2 ≤ valid_prices.length then .medium
    else .low

end Aggregator

namespace PyCalc

/-- Token address table of services/PythonArbitrageCalculator.py (its USDC
and BTCB entries differ from ArbitrageCalculator.py's constants). -/
def TOKENS (sym : String) : String :=
  if sym = "WBNB" then "0xbb4CdB9CBd36B01bD1cBaEBF2De08d9173bc095c"
  else if sym = "USDT" then "0x55d398326f99059fF775485246999027B3197955"
  else if sym = "USDC" then "0x8AC76a51cc950d9822D68b83fE1Ad97B32Cd580d"
  else if sym = "BUSD" then "0xe9e7CEA3DedcA5984780Bafc599bD69ADd087D56"
  else if sym = "CAKE" then "0x0E09FaBB73Bd3Ade0a17ECC321fD13a19e81cE82"
  else if sym = "BTCB" then "0x7130d2A12B9BCbFAe4f2634d864A1Ee1Ce3Ead9c"
  else ""

/-- Opportunity dictionary returned by _calculate_path_profit; the router
name and timestamp fields are constants/clock reads and are omitted. -/
structure PathOpportunity where
  path : List String
  amountInWei : ℤ
  expectedProfitWei : ℤ
  deriving Repr, DecidableEq

/-- Embedding of _calculate_path_profit (lines 96-132): walks the 3-token
cycle multiplying by exchange_rates.get(key, 1.0) at each hop — a missing
rate contributes the default factor 1.0 — and returns an opportunity only
when the round trip gains more than 0.5%. -/
def calculate_path_profit (rates : String → Option ℚ) (path : List String)
    (amount_in : ℚ) : Option PathOpportunity :=
  match path with
  | [a, b, c] =>
    let amount_b := amount_in * ((rates (a ++ "_" ++ b)).getD 1)
    let amount_c := amount_b * ((rates (b ++ "_" ++ c)).getD 1)
    let final_amount := amount_c * ((rates (c ++ "_" ++ a)).getD 1)
    let profit_percentage := (final_amount - amount_in) / amount_in * 100
    if 1/2 < profit_percentage then
      some { path := [TOKENS a, TOKENS b, TOKENS c]
             amountInWei := ArbCalc.pyInt (amount_in * 10^18)
             expectedProfitWei := ArbCalc.pyInt ((final_amount - amount_in) * 10^18) }
    else none
  | _ => none

end PyCalc

namespace Sim

/-- Opportunity input fields read by simulate_multiple_trades. -/
structure SimTrade where
  estimated_profit : ℚ
  estimated_gas_cost : ℚ
  roi_percent : ℚ
  deriving Repr, DecidableEq

/-- Random draws of one trial of ai/trade_simulator.py: the sampled gas
multiplier, the sampled success outcome, and the sampled profit-realisation
multiplier (the np.random draws, supplied as data). -/
structure TrialSample where
  gas_multiplier : ℚ
  execution_success : Bool
  profit_multiplier : ℚ
  deriving Repr, DecidableEq

/-- Numeric accumulators of simulation_results mutated by the trial loop.
The reporting-only fields (trades list, best/worst trade, average_roi, the
projections) are derived for output and never feed back into these. -/
structure SimResults where
  total_profit : ℚ
  successful_trades : ℕ
  failed_trades : ℕ
  total_gas_cost : ℚ
  deriving Repr, DecidableEq

/-- One iteration of the trial loop (lines 29-65): on success add the
realised profit and the gas cost; on failure only count the failure and pay
the gas (line 65: still pay gas for failed transactions). -/
def simStep (acc : SimResults) (t : SimTrade × TrialSample) : SimResults :=
  let gas_cost := t.1.estimated_gas_cost * t.2.gas_multiplier
  if t.2.execution_success then
    let actual_profit := t.1.estimated_profit * t.2.profit_multiplier
    { acc with
      total_profit := acc.total_profit + actual_profit
      total_gas_cost := acc.total_gas_cost + gas_cost
      successful_trades := acc.successful_trades + 1 }
  else
    { acc with
      failed_trades := acc.failed_trades + 1
      total_gas_cost := acc.total_gas_cost + gas_cost }

/-- Trial loop of simulate_multiple_trades over the selected trades paired
with their random draws. -/
def simFold (trials : List (SimTrade × TrialSample)) : SimResults :=
  trials.foldl simStep
    { total_profit := 0, successful_trades := 0, failed_trades := 0, total_gas_cost := 0 }

/-- Line 71 of the source: net_profit = total_profit - total_gas_cost. -/
def net_profit (r : SimResults) : ℚ := r.total_profit - r.total_gas_cost

/-- Descending-by-ROI relation of the opportunity pre-sort (line 27). -/
def roiGE (a b : SimTrade) : Prop := b.roi_percent ≤ a.roi_percent

instance : DecidableRel roiGE := fun a b => inferInstanceAs (Decidable (_ ≤ _))

/-- Embedding of simulate_multiple_trades (lines 12-78): sort opportunities
by roi_percent descending, run min(num_trades, len) trials, one random draw
triple per trial. -/
def simulate_multiple_trades (opportunities : List SimTrade)
    (samples : List TrialSample) (num_trades : ℕ) : SimResults :=
  let sorted_opps := opportunities.insertionSort roiGE
  simFold ((sorted_opps.take (Nat.min num_trades sorted_opps.length)).zip samples)

end Sim

/-- True median as the specification words it (independent of the code: the
prices sorted ascending, the middle element for an odd count, the average of
the two middle elements for an even count), written with mergeSort so that
agreement with the code's insertion-sorted medians is a proved fact. -/
def specTrueMedian (l : List ℚ) : ℚ :=
  let s := l.mergeSort (fun a b => decide (a ≤ b))
  if l.length % 2 = 1 then s.getD (l.length / 2) 0
  else (s.getD (l.length / 2 - 1) 0 + s.getD (l.length / 2) 0) / 2

/-- True median of integer prices (get_price_multi_source works on wei
integers), valued in ℚ so the even case can average. -/
def specTrueMedianInt (l : List ℤ) : ℚ :=
  let s := l.mergeSort (fun a b => decide (a ≤ b))
  if l.length % 2 = 1 then ((s.getD (l.length / 2) 0 : ℤ) : ℚ)
  else (((s.getD (l.length / 2 - 1) 0 : ℤ) : ℚ) + ((s.getD (l.length / 2) 0 : ℤ) : ℚ)) / 2

/-! General lemmas about the embedded helpers. -/

theorem insertionSort_eq_mergeSort_int (l : List ℤ) :
    l.insertionSort (· ≤ ·) = l.mergeSort (fun a b => decide (a ≤ b)) := by
  refine List.eq_of_perm_of_sorted
    ((List.perm_insertionSort _ l).trans (List.mergeSort_perm l _).symm)
    (List.sorted_insertionSort _ l) ?_
  have h := @List.sorted_mergeSort ℤ (fun a b => decide (a ≤ b))
    (by intro a b c hab hbc; simp only [decide_eq_true_eq] at *; omega)
    (by intro a b; simpa using le_total a b) l
  exact h.imp (fun hab => by simpa using hab)

theorem insertionSort_eq_mergeSort_rat (l : List ℚ) :
    l.insertionSort (· ≤ ·) = l.mergeSort (fun a b => decide (a ≤ b)) := by
  refine List.eq_of_perm_of_sorted
    ((List.perm_insertionSort _ l).trans (List.mergeSort_perm l _).symm)
    (List.sorted_insertionSort _ l) ?_
  have h := @List.sorted_mergeSort ℚ (fun a b => decide (a ≤ b))
    (by intro a b c hab hbc; simp only [decide_eq_true_eq] at *; exact le_trans hab hbc)
    (by intro a b; simpa using le_total a b) l
  exact h.imp (fun hab => by simpa using hab)

theorem rat_floor_eq_floor (q : ℚ) : Rat.floor q = ⌊q⌋ := rfl

theorem quantizeCents_le (m : ℤ) (x : ℚ) (h : x ≤ (m : ℚ)) :
    ArbCalc.quantizeCents x ≤ (m : ℚ) := by
  simp only [ArbCalc.quantizeCents, rat_floor_eq_floor]
  have hfle : ⌊x * 100⌋ ≤ 100 * m := by
    have h2 : ⌊x * 100⌋ ≤ ⌊((100 * m : ℤ) : ℚ)⌋ := Int.floor_le_floor (by push_cast; linarith)
    rwa [Int.floor_intCast] at h2
  have key : (if (1 : ℚ)/2 < x * 100 - (⌊x * 100⌋ : ℚ) then ⌊x * 100⌋ + 1
      else if x * 100 - (⌊x * 100⌋ : ℚ) < 1/2 then ⌊x * 100⌋ else
      if ⌊x * 100⌋ % 2 = 0 then ⌊x * 100⌋ else ⌊x * 100⌋ + 1) ≤ 100 * m := by
    rcases eq_or_lt_of_le hfle with heq | hlt
    · have hr : x * 100 - (⌊x * 100⌋ : ℚ) ≤ 0 := by
        rw [heq]; push_cast; linarith
      rw [if_neg (by linarith), if_pos (by linarith)]
      exact hfle
    · split_ifs <;> omega
  rw [div_le_iff (by norm_num : (0 : ℚ) < 100)]
  calc ((if (1 : ℚ)/2 < x * 100 - (⌊x * 100⌋ : ℚ) then ⌊x * 100⌋ + 1
      else if x * 100 - (⌊x * 100⌋ : ℚ) < 1/2 then ⌊x * 100⌋ else
      if ⌊x * 100⌋ % 2 = 0 then ⌊x * 100⌋ else ⌊x * 100⌋ + 1 : ℤ) : ℚ)
      ≤ ((100 * m : ℤ) : ℚ) := by exact_mod_cast key
    _ = (m : ℚ) * 100 := by push_cast; ring

theorem le_quantizeCents (m : ℤ) (x : ℚ) (h : (m : ℚ) ≤ x) :
    (m : ℚ) ≤ ArbCalc.quantizeCents x := by
  simp only [ArbCalc.quantizeCents, rat_floor_eq_floor]
  have hfge : 100 * m ≤ ⌊x * 100⌋ := by
    rw [Int.le_floor]; push_cast; linarith
  have key : 100 * m ≤ (if (1 : ℚ)/2 < x * 100 - (⌊x * 100⌋ : ℚ) then ⌊x * 100⌋ + 1
      else if x * 100 - (⌊x * 100⌋ : ℚ) < 1/2 then ⌊x * 100⌋ else
      if ⌊x * 100⌋ % 2 = 0 then ⌊x * 100⌋ else ⌊x * 100⌋ + 1) := by
    split_ifs <;> omega
  rw [le_div_iff (by norm_num : (0 : ℚ) < 100)]
  calc (m : ℚ) * 100 = ((100 * m : ℤ) : ℚ) := by push_cast; ring
    _ ≤ _ := by exact_mod_cast key

theorem quantizeCents_intCast (m : ℤ) : ArbCalc.quantizeCents (m : ℚ) = (m : ℚ) :=
  le_antisymm (quantizeCents_le m _ le_rfl) (le_quantizeCents m _ le_rfl)

/-! Claim theorems. -/

/-- C9: in every simulation run, a failed trial contributes exactly minus its
sampled gas cost to the aggregate net profit: the gas cost is added to total
gas spent, no profit is added, and only the failed-trades counter moves. -/
theorem failed_trade_contributes_minus_gas
    (ts : List (Sim.SimTrade × Sim.TrialSample)) (t : Sim.SimTrade) (s : Sim.TrialSample)
    (h : s.execution_success = false) :
    Sim.net_profit (Sim.simFold (ts ++ [(t, s)]))
        = Sim.net_profit (Sim.simFold ts) - t.estimated_gas_cost * s.gas_multiplier ∧
    (Sim.simFold (ts ++ [(t, s)])).total_gas_cost
        = (Sim.simFold ts).total_gas_cost + t.estimated_gas_cost * s.gas_multiplier ∧
    (Sim.simFold (ts ++ [(t, s)])).total_profit = (Sim.simFold ts).total_profit ∧
    (Sim.simFold (ts ++ [(t, s)])).failed_trades = (Sim.simFold ts).failed_trades + 1 ∧
    (Sim.simFold (ts ++ [(t, s)])).successful_trades = (Sim.simFold ts).successful_trades := by
  have hfold : Sim.simFold (ts ++ [(t, s)]) = Sim.simStep (Sim.simFold ts) (t, s) := by
    simp [Sim.simFold, List.foldl_append]
  rw [hfold]
  refine ⟨?_, ?_, ?_, ?_, ?_⟩ <;> simp [Sim.simStep, h, Sim.net_profit] <;> ring

/-- Witness for C9 at a concrete failed trial. -/
theorem failed_trade_contributes_minus_gas_witness :
    (Sim.TrialSample.mk (3/2) false 1).execution_success = false ∧
    Sim.net_profit (Sim.simFold ([] ++ [(Sim.SimTrade.mk 5 2 10, Sim.TrialSample.mk (3/2) false 1)]))
      = Sim.net_profit (Sim.simFold [])
        - (Sim.SimTrade.mk 5 2 10).estimated_gas_cost * (Sim.TrialSample.mk (3/2) false 1).gas_multiplier :=
  ⟨rfl, (failed_trade_contributes_minus_gas [] (Sim.SimTrade.mk 5 2 10)
    (Sim.TrialSample.mk (3/2) false 1) rfl).1⟩

/-- C4: a path whose evaluation carries manipulation_risk = true is never in
the opportunities list built and sorted by scan_all_paths, however large its
profit: the gate of line 286 requires the risk flag to be clear. -/
theorem manipulation_risk_never_ranked
    (g : ArbCalc.Oracle) (paths : List ArbCalc.PathInfo) (p : ArbCalc.PathInfo)
    (hp : p ∈ paths)
    (hrisk : (ArbCalc.calculate_multi_hop_profit g p none).manipulation_risk = true) :
    ∀ o ∈ ArbCalc.scan_all_paths g paths, o.path ≠ p := by
  intro o ho
  have hmem : o ∈ (((paths.map fun q => (q, ArbCalc.calculate_multi_hop_profit g q none)).filter
      fun e => ArbCalc.passes_gate e.2).map fun e => ArbCalc.mkOpportunity e.1 e.2) := by
    have hperm := List.perm_insertionSort ArbCalc.effGE
      (((paths.map fun q => (q, ArbCalc.calculate_multi_hop_profit g q none)).filter
        fun e => ArbCalc.passes_gate e.2).map fun e => ArbCalc.mkOpportunity e.1 e.2)
    exact hperm.mem_iff.mp ho
  rcases List.mem_map.mp hmem with ⟨e, he, rfl⟩
  rcases List.mem_filter.mp he with ⟨hein, hgate⟩
  rcases List.mem_map.mp hein with ⟨q, _, rfl⟩
  intro hpath
  have hq : q = p := hpath
  subst hq
  simp [ArbCalc.passes_gate, hrisk] at hgate

set_option maxRecDepth 4000 in
/-- Witness for C4: a path rejected by the oracle (zero prices) carries the
risk flag, and the ranked output for that path set excludes it. -/
theorem manipulation_risk_never_ranked_witness :
    (ArbCalc.PathInfo.mk "t" [ArbCalc.USDT, ArbCalc.WBNB, ArbCalc.USDT] ArbCalc.USDT 3)
      ∈ [ArbCalc.PathInfo.mk "t" [ArbCalc.USDT, ArbCalc.WBNB, ArbCalc.USDT] ArbCalc.USDT 3] ∧
    (ArbCalc.calculate_multi_hop_profit (fun _ _ _ => ArbCalc.PriceData.mk 0 0 false 0)
      (ArbCalc.PathInfo.mk "t" [ArbCalc.USDT, ArbCalc.WBNB, ArbCalc.USDT] ArbCalc.USDT 3)
      none).manipulation_risk = true ∧
    ∀ o ∈ ArbCalc.scan_all_paths (fun _ _ _ => ArbCalc.PriceData.mk 0 0 false 0)
        [ArbCalc.PathInfo.mk "t" [ArbCalc.USDT, ArbCalc.WBNB, ArbCalc.USDT] ArbCalc.USDT 3],
      o.path ≠ ArbCalc.PathInfo.mk "t" [ArbCalc.USDT, ArbCalc.WBNB, ArbCalc.USDT] ArbCalc.USDT 3 :=
  ⟨List.mem_singleton.mpr rfl, by with_unfolding_all decide,
    manipulation_risk_never_ranked _ _ _ (List.mem_singleton.mpr rfl)
      (by with_unfolding_all decide)⟩

/-- C5, counterexample: _calculate_path_profit evaluated with an exchange-rate
table that has no entry for two of the three hops still returns an
opportunity, because the source substitutes the default rate 1.0 for each
missing pair (exchange_rates.get(key, 1.0)). -/
theorem missing_rate_not_rejected_cex :
    (PyCalc.calculate_path_profit
        (fun k => if k = "WBNB_USDT" then some (2 : ℚ) else none)
        ["WBNB", "USDT", "BTCB"] 1).isSome = true ∧
    (fun k => if k = "WBNB_USDT" then some (2 : ℚ) else none) "USDT_BTCB" = none ∧
    (fun k => if k = "WBNB_USDT" then some (2 : ℚ) else none) "BTCB_WBNB" = none := by
  refine ⟨?_, rfl, rfl⟩
  with_unfolding_all decide

/-- C5, amended: get_price_multi_source does return its distinguished
no-price sentinel when no source yields a valid price, the hop walk of
calculate_multi_hop_profit aborts on a zero price, and get_token_price
returns None below the source quorum; but _calculate_path_profit computes
with the default rate 1.0 wherever a pair's rate is missing, so not every
caller refuses to substitute a default. -/
theorem not_available_amended :
    (∀ raw : List ℤ, raw.filter (fun p => decide (0 < p)) = [] →
      ArbCalc.get_price_multi_source raw
        = ArbCalc.PriceData.mk 0 0 false 0) ∧
    (∀ (g : ArbCalc.Oracle) (a b : String) (rest : List String) (amt : ℤ)
        (risk : Bool) (conf : ℚ) (fees : ℤ), (g a b amt).price = 0 →
      ArbCalc.hop_walk g (a :: b :: rest) amt risk conf fees = none) ∧
    (∀ (validate : ℚ → Bool) (prices : List (Option ℚ)) (c : ℕ),
        (prices.filterMap (fun p => p)).length < c →
      Aggregator.get_token_price validate prices c = none) ∧
    (∀ (rates : String → Option ℚ) (path : List String) (amt : ℚ),
      PyCalc.calculate_path_profit rates path amt
        = PyCalc.calculate_path_profit (fun k => some ((rates k).getD 1)) path amt) := by
  refine ⟨?_, ?_, ?_, ?_⟩
  · intro raw hraw
    simp [ArbCalc.get_price_multi_source, hraw]
  · intro g a b rest amt risk conf fees hzero
    simp [ArbCalc.hop_walk, hzero]
  · intro validate prices c hc
    simp [Aggregator.get_token_price, hc]
  · intro rates path amt
    unfold PyCalc.calculate_path_profit
    rcases path with _ | ⟨a, _ | ⟨b, _ | ⟨c, _ | ⟨d, tl⟩⟩⟩⟩ <;> rfl

/-- Witness for C5's amended statement at concrete inputs. -/
theorem not_available_amended_witness :
    (([0, -3] : List ℤ).filter (fun p => decide (0 < p)) = [] ∧
      ArbCalc.get_price_multi_source [0, -3] = ArbCalc.PriceData.mk 0 0 false 0) ∧
    (((fun _ _ _ => ArbCalc.PriceData.mk 0 1 false 2 : ArbCalc.Oracle) "a" "b" 7).price = 0 ∧
      ArbCalc.hop_walk (fun _ _ _ => ArbCalc.PriceData.mk 0 1 false 2) ["a", "b"] 7 false 1 0
        = none) ∧
    (([some (3 : ℚ), none].filterMap (fun p => p)).length < 2 ∧
      Aggregator.get_token_price (fun _ => true) [some (3 : ℚ), none] 2 = none) ∧
    PyCalc.calculate_path_profit (fun _ => none) ["WBNB", "USDT", "BTCB"] 1
      = PyCalc.calculate_path_profit (fun k => some (((fun _ => none) k).getD 1))
          ["WBNB", "USDT", "BTCB"] 1 :=
  ⟨⟨by decide, not_available_amended.1 [0, -3] (by decide)⟩,
    ⟨rfl, not_available_amended.2.1 _ "a" "b" [] 7 false 1 0 rfl⟩,
    ⟨by decide, not_available_amended.2.2.1 (fun _ => true) [some (3 : ℚ), none] 2 (by decide)⟩,
    not_available_amended.2.2.2 (fun _ => none) ["WBNB", "USDT", "BTCB"] 1⟩

/-- C1 (code-bug evidence): fee_rate = 9975 // 10000 is Python integer
division and equals 0, so the hop update amount = price * fee_rate // 10000
zeroes the carried amount after the first hop instead of applying the
documented 0.25 percent fee multiplicatively; with an oracle applying the
multiplier 1.1 per hop and a $1 start, the walk carries 0 out of the first
hop and the evaluation collapses to the rejection result instead of a
gross profit of A*m1*m2*m3 - A. -/
theorem fee_rate_zero_collapses_walk :
    ArbCalc.fee_rate = 0 ∧
    ArbCalc.hop_walk (fun _ _ amt => ArbCalc.PriceData.mk (Int.fdiv (11 * amt) 10) 1 false 3)
        [ArbCalc.USDT, ArbCalc.WBNB] (10^18) false 1 0
      = some (0, false, 1, 11 * 10^17) ∧
    ArbCalc.calculate_multi_hop_profit
        (fun _ _ amt => ArbCalc.PriceData.mk (Int.fdiv (11 * amt) 10) 1 false 3)
        (ArbCalc.PathInfo.mk "x"
          [ArbCalc.USDT, ArbCalc.WBNB, ArbCalc.BTCB, ArbCalc.USDT] ArbCalc.USDT 3)
        (some 1)
      = ArbCalc.rejectedResult := by
  refine ⟨rfl, by decide, ?_⟩
  with_unfolding_all decide

theorem max_deviation_nonneg (l : List ℤ) (m : ℤ) : 0 ≤ ArbCalc.max_deviation l m := by
  unfold ArbCalc.max_deviation
  suffices h : ∀ (t : List ℤ) (acc : ℚ), 0 ≤ acc →
      0 ≤ t.foldl (fun acc p => ArbCalc.pyMax acc (ArbCalc.deviationFrom m p)) acc by
    exact h l 0 le_rfl
  intro t
  induction t with
  | nil => intro acc h; simpa using h
  | cons p rest IH =>
    intro acc h
    simp only [List.foldl_cons]
    refine IH _ ?_
    rw [ArbCalc.pyMax_eq]
    exact le_trans h (le_max_left _ _)

theorem multi_source_confidence_unit (raw : List ℤ) :
    0 ≤ (ArbCalc.get_price_multi_source raw).confidence ∧
      (ArbCalc.get_price_multi_source raw).confidence ≤ 1 := by
  by_cases hv : raw.filter (fun p => decide (0 < p)) = []
  · simp [ArbCalc.get_price_multi_source, hv]
  · have hd := max_deviation_nonneg (raw.filter (fun p => decide (0 < p)))
      (ArbCalc.multi_median (raw.filter (fun p => decide (0 < p))))
    simp only [ArbCalc.get_price_multi_source, hv, if_false, ArbCalc.pyMin_eq]
    constructor
    · have : min (ArbCalc.max_deviation (raw.filter (fun p => decide (0 < p)))
          (ArbCalc.multi_median (raw.filter (fun p => decide (0 < p))))) 1 ≤ 1 :=
        min_le_right _ _
      linarith
    · have : 0 ≤ min (ArbCalc.max_deviation (raw.filter (fun p => decide (0 < p)))
          (ArbCalc.multi_median (raw.filter (fun p => decide (0 < p))))) 1 :=
        le_min hd (by norm_num)
      linarith

theorem hop_walk_confidence (g : ArbCalc.Oracle)
    (hg : ∀ a b n, 0 ≤ (g a b n).confidence ∧ (g a b n).confidence ≤ 1) :
    ∀ (path : List String) (amt : ℤ) (risk : Bool) (conf : ℚ) (fees : ℤ),
      0 ≤ conf → conf ≤ 1 →
      ∀ x, ArbCalc.hop_walk g path amt risk conf fees = some x →
        0 ≤ x.2.2.1 ∧ x.2.2.1 ≤ 1 := by
  intro path
  induction path with
  | nil =>
    intro amt risk conf fees h0 h1 x hx
    simp only [ArbCalc.hop_walk, Option.some.injEq] at hx
    subst hx
    exact ⟨h0, h1⟩
  | cons a tail IH =>
    cases tail with
    | nil =>
      intro amt risk conf fees h0 h1 x hx
      simp only [ArbCalc.hop_walk, Option.some.injEq] at hx
      subst hx
      exact ⟨h0, h1⟩
    | cons b rest =>
      intro amt risk conf fees h0 h1 x hx
      by_cases hz : (g a b amt).price = 0
      · simp [ArbCalc.hop_walk, hz] at hx
      · simp only [ArbCalc.hop_walk, hz, if_false] at hx
        refine IH _ _ _ _ ?_ ?_ x hx
        · rw [ArbCalc.pyMin_eq]
          exact le_min h0 (hg a b amt).1
        · rw [ArbCalc.pyMin_eq]
          exact le_trans (min_le_left _ _) h1

theorem multi_hop_eval_confidence (g : ArbCalc.Oracle)
    (hg : ∀ a b n, 0 ≤ (g a b n).confidence ∧ (g a b n).confidence ≤ 1)
    (path : List String) (start : String) (A : ℚ) :
    ∀ y, ArbCalc.multi_hop_eval g path start A = some y →
      0 ≤ y.2.2.1 ∧ y.2.2.1 ≤ 1 := by
  intro y hy
  unfold ArbCalc.multi_hop_eval at hy
  cases hs : ArbCalc.startAmountWei g start A with
  | none => rw [hs] at hy; simp at hy
  | some amt0 =>
    rw [hs] at hy
    dsimp only at hy
    cases hw : ArbCalc.hop_walk g path amt0 false 1 0 with
    | none => rw [hw] at hy; simp at hy
    | some w =>
      rw [hw] at hy
      dsimp only at hy
      obtain ⟨amtF, risk, conf, fees⟩ := w
      have hcw := hop_walk_confidence g hg path amt0 false 1 0 (by norm_num) le_rfl _ hw
      by_cases hf : (g (path.getLastD "") ArbCalc.USDT amtF).price = 0 ∨
          (g (path.getLastD "") ArbCalc.USDT amtF).confidence < 7/10
      · rw [if_pos hf] at hy
        exact absurd hy (by simp)
      · rw [if_neg hf] at hy
        obtain rfl := Option.some.inj hy
        constructor
        · rw [ArbCalc.pyMin_eq]
          exact le_min hcw.1 (hg _ _ _).1
        · rw [ArbCalc.pyMin_eq]
          exact le_trans (min_le_left _ _) hcw.2

/-- C10: the confidence of get_price_multi_source and the total confidence
of calculate_multi_hop_profit always lie in [0, 1]: the deviation term is
clamped at 1 before the subtraction, the per-hop minimum keeps the running
confidence in the unit interval, and the hop-penalty subtraction is floored
at 0 (for the multi-hop part the oracle results are assumed to carry unit
confidences, which the first part establishes for the real oracle). -/
theorem confidences_in_unit_interval :
    (∀ raw : List ℤ, 0 ≤ (ArbCalc.get_price_multi_source raw).confidence ∧
      (ArbCalc.get_price_multi_source raw).confidence ≤ 1) ∧
    (∀ g : ArbCalc.Oracle,
      (∀ a b n, 0 ≤ (g a b n).confidence ∧ (g a b n).confidence ≤ 1) →
      ∀ (info : ArbCalc.PathInfo) (flash : Option ℚ),
        0 ≤ (ArbCalc.calculate_multi_hop_profit g info flash).confidence ∧
        (ArbCalc.calculate_multi_hop_profit g info flash).confidence ≤ 1) := by
  refine ⟨multi_source_confidence_unit, ?_⟩
  intro g hg info flash
  unfold ArbCalc.calculate_multi_hop_profit
  cases hev : ArbCalc.multi_hop_eval g info.path info.start
      (match flash with
        | some a => a
        | none => ArbCalc.calculate_optimal_position_size g info) with
  | none => simp [hev, ArbCalc.rejectedResult]
  | some y =>
    obtain ⟨p, r, c, s, f⟩ := y
    have hc := multi_hop_eval_confidence g hg info.path info.start _ _ hev
    simp only at hc
    simp only [hev, ArbCalc.finishResult, ArbCalc.pyMax_eq]
    have hpen : 0 ≤ max (0 : ℚ) ((info.hops : ℚ) - 3) * (1/10) :=
      mul_nonneg (le_max_left 0 _) (by norm_num)
    constructor
    · exact le_max_left _ _
    · exact max_le (by norm_num) (by linarith [hc.2])

/-- Witness for C10's second part at a concrete oracle of unit confidences. -/
theorem confidences_in_unit_interval_witness :
    (0 ≤ (ArbCalc.get_price_multi_source [100, 200]).confidence ∧
      (ArbCalc.get_price_multi_source [100, 200]).confidence ≤ 1) ∧
    (0 ≤ (ArbCalc.calculate_multi_hop_profit
        (fun _ _ _ => ArbCalc.PriceData.mk (10^20) 1 false 3)
        (ArbCalc.PathInfo.mk "w" [ArbCalc.USDT, ArbCalc.WBNB, ArbCalc.BTCB, ArbCalc.USDT]
          ArbCalc.USDT 4) (some 1)).confidence ∧
      (ArbCalc.calculate_multi_hop_profit
        (fun _ _ _ => ArbCalc.PriceData.mk (10^20) 1 false 3)
        (ArbCalc.PathInfo.mk "w" [ArbCalc.USDT, ArbCalc.WBNB, ArbCalc.BTCB, ArbCalc.USDT]
          ArbCalc.USDT 4) (some 1)).confidence ≤ 1) :=
  ⟨confidences_in_unit_interval.1 [100, 200],
    confidences_in_unit_interval.2 (fun _ _ _ => ArbCalc.PriceData.mk (10^20) 1 false 3)
      (fun _ _ _ => ⟨zero_le_one, le_refl 1⟩)
      (ArbCalc.PathInfo.mk "w" [ArbCalc.USDT, ArbCalc.WBNB, ArbCalc.BTCB, ArbCalc.USDT]
        ArbCalc.USDT 4) (some 1)⟩

theorem estimate_pair_liquidity_form (a b : String) :
    ∃ k : ℤ, 1 ≤ k ∧ ArbCalc.estimate_pair_liquidity a b = 1000000 * (k : ℚ) := by
  unfold ArbCalc.estimate_pair_liquidity
  split_ifs
  · exact ⟨5, by norm_num, by norm_num⟩
  · exact ⟨3, by norm_num, by norm_num⟩
  · exact ⟨2, by norm_num, by norm_num⟩
  · exact ⟨10, by norm_num, by norm_num⟩
  · exact ⟨8, by norm_num, by norm_num⟩
  · exact ⟨1, by norm_num, by norm_num⟩

theorem min_liquidity_usd_form (path : List String) (h : ArbCalc.pathPairs path ≠ []) :
    ∃ k : ℤ, 1 ≤ k ∧ ArbCalc.min_liquidity_usd path = 1000000 * (k : ℚ) := by
  unfold ArbCalc.min_liquidity_usd
  rcases hp : ArbCalc.pathPairs path with _ | ⟨q, rest⟩
  · exact absurd hp h
  · suffices hfold : ∀ (t : List (String × String)) (acc : ℚ),
        (∃ k : ℤ, 1 ≤ k ∧ acc = 1000000 * (k : ℚ)) →
        ∃ k : ℤ, 1 ≤ k ∧
          t.foldl (fun acc pr => ArbCalc.pyMin acc (ArbCalc.estimate_pair_liquidity pr.1 pr.2)) acc
            = 1000000 * (k : ℚ) by
      exact hfold rest _ (estimate_pair_liquidity_form q.1 q.2)
    intro t
    induction t with
    | nil => intro acc h; simpa using h
    | cons pr rest2 IH =>
      intro acc hacc
      simp only [List.foldl_cons]
      refine IH _ ?_
      rw [ArbCalc.pyMin_eq]
      rcases le_total acc (ArbCalc.estimate_pair_liquidity pr.1 pr.2) with hle | hle
      · rw [min_eq_left hle]; exact hacc
      · rw [min_eq_right hle]; exact estimate_pair_liquidity_form pr.1 pr.2

theorem max_position_pct_form (s : String) :
    ∃ j : ℤ, 2 ≤ j ∧ j ≤ 5 ∧ ArbCalc.max_position_pct s = (j : ℚ) / 100 := by
  unfold ArbCalc.max_position_pct
  split_ifs
  · exact ⟨2, by norm_num, by norm_num, by norm_num⟩
  · exact ⟨5, by norm_num, by norm_num, by norm_num⟩
  · exact ⟨3, by norm_num, by norm_num, by norm_num⟩

/-- C3, counterexample: for the CAKE-based path CAKE-WBNB-USDT-CAKE under an
oracle pricing CAKE at 10 USDT (price 10^19 wei out for 10^18 in), the sized
amount is $50,000 while the minimum path liquidity ($1M default) times the
volatile-category fraction (2%) is $20,000: the USD conversion multiplies
the liquidity cap by the token price, so the returned size exceeds
min_liquidity * max_trade_fraction. -/
theorem sizing_exceeds_liquidity_cap_cex :
    ArbCalc.calculate_optimal_position_size (fun _ _ _ => ArbCalc.PriceData.mk (10^19) 1 false 3)
        (ArbCalc.PathInfo.mk "c" [ArbCalc.CAKE, ArbCalc.WBNB, ArbCalc.USDT, ArbCalc.CAKE]
          ArbCalc.CAKE 3) = 50000 ∧
    ArbCalc.min_liquidity_usd [ArbCalc.CAKE, ArbCalc.WBNB, ArbCalc.USDT, ArbCalc.CAKE]
        * ArbCalc.max_position_pct ArbCalc.CAKE = 20000 ∧
    (20000 : ℚ) < 50000 := by
  have hml : ArbCalc.min_liquidity_usd
      [ArbCalc.CAKE, ArbCalc.WBNB, ArbCalc.USDT, ArbCalc.CAKE] = 1000000 := by decide
  have hpct : ArbCalc.max_position_pct ArbCalc.CAKE = 2/100 := by
    unfold ArbCalc.max_position_pct
    rw [if_pos (Or.inr rfl)]
  refine ⟨?_, ?_, by norm_num⟩
  · unfold ArbCalc.calculate_optimal_position_size
    dsimp only
    rw [if_neg (by decide : ¬(ArbCalc.pathPairs
      [ArbCalc.CAKE, ArbCalc.WBNB, ArbCalc.USDT, ArbCalc.CAKE] = []))]
    rw [if_neg (by decide : ¬(ArbCalc.CAKE = ArbCalc.USDT ∨ ArbCalc.CAKE = ArbCalc.USDC ∨
      ArbCalc.CAKE = ArbCalc.BUSD ∨ ArbCalc.CAKE = ArbCalc.FDUSD))]
    rw [if_pos (by decide : (0 : ℤ) < (ArbCalc.PriceData.mk (10^19) 1 false 3).price)]
    rw [hml, hpct]
    have harith : (1000000 : ℚ) * (2/100) * (((10^19 : ℤ)) : ℚ) / 10^18 = 200000 := by
      push_cast
      norm_num
    rw [harith, ArbCalc.pyMin_eq, ArbCalc.pyMax_eq]
    rw [min_eq_right (by norm_num : (50000 : ℚ) ≤ 200000),
      max_eq_left (by norm_num : (1000 : ℚ) ≤ 50000)]
    exact_mod_cast quantizeCents_intCast 50000
  · rw [hml, hpct]
    norm_num

/-- C3, amended: the returned position size always lies in the absolute band
[$1,000, $50,000]; for stablecoin-based paths it also never exceeds the
minimum path liquidity times the category fraction, but for other bases the
liquidity cap is converted through the oracle price (and replaced by
fallbacks when that price is missing), so the cap can be exceeded. -/
theorem sizing_bounds_amended (g : ArbCalc.Oracle) (info : ArbCalc.PathInfo) :
    1000 ≤ ArbCalc.calculate_optimal_position_size g info ∧
    ArbCalc.calculate_optimal_position_size g info ≤ 50000 ∧
    ((info.start = ArbCalc.USDT ∨ info.start = ArbCalc.USDC ∨
        info.start = ArbCalc.BUSD ∨ info.start = ArbCalc.FDUSD) →
      ArbCalc.pathPairs info.path ≠ [] →
      ArbCalc.calculate_optimal_position_size g info
        ≤ ArbCalc.min_liquidity_usd info.path * ArbCalc.max_position_pct info.start) := by
  by_cases hp : ArbCalc.pathPairs info.path = []
  · unfold ArbCalc.calculate_optimal_position_size
    rw [if_pos hp]
    exact ⟨by norm_num, by norm_num, fun _ hne => absurd hp hne⟩
  · have hq : ArbCalc.calculate_optimal_position_size g info
        = ArbCalc.quantizeCents (ArbCalc.pyMax (ArbCalc.pyMin
          (if info.start = ArbCalc.USDT ∨ info.start = ArbCalc.USDC ∨
              info.start = ArbCalc.BUSD ∨ info.start = ArbCalc.FDUSD then
            ArbCalc.min_liquidity_usd info.path * ArbCalc.max_position_pct info.start
          else
            if 0 < (g info.start ArbCalc.USDT (10^18)).price then
              ArbCalc.min_liquidity_usd info.path * ArbCalc.max_position_pct info.start
                * ((g info.start ArbCalc.USDT (10^18)).price : ℚ) / 10^18
            else 10000) 50000) 1000) := by
      unfold ArbCalc.calculate_optimal_position_size
      rw [if_neg hp]
    rw [hq]
    set X : ℚ := (if info.start = ArbCalc.USDT ∨ info.start = ArbCalc.USDC ∨
        info.start = ArbCalc.BUSD ∨ info.start = ArbCalc.FDUSD then
      ArbCalc.min_liquidity_usd info.path * ArbCalc.max_position_pct info.start
    else
      if 0 < (g info.start ArbCalc.USDT (10^18)).price then
        ArbCalc.min_liquidity_usd info.path * ArbCalc.max_position_pct info.start
          * ((g info.start ArbCalc.USDT (10^18)).price : ℚ) / 10^18
      else 10000) with hX
    have hband1 : (1000 : ℚ) ≤ ArbCalc.quantizeCents (ArbCalc.pyMax (ArbCalc.pyMin X 50000) 1000) := by
      have h1 : ((1000 : ℤ) : ℚ) ≤ ArbCalc.pyMax (ArbCalc.pyMin X 50000) 1000 := by
        rw [ArbCalc.pyMax_eq]
        push_cast
        exact le_max_right _ _
      have := le_quantizeCents 1000 _ h1
      exact_mod_cast this
    have hband2 : ArbCalc.quantizeCents (ArbCalc.pyMax (ArbCalc.pyMin X 50000) 1000) ≤ 50000 := by
      have h1 : ArbCalc.pyMax (ArbCalc.pyMin X 50000) 1000 ≤ ((50000 : ℤ) : ℚ) := by
        rw [ArbCalc.pyMax_eq, ArbCalc.pyMin_eq]
        push_cast
        exact max_le (min_le_right _ _) (by norm_num)
      have := quantizeCents_le 50000 _ h1
      exact_mod_cast this
    refine ⟨hband1, hband2, ?_⟩
    intro hstable _
    rw [hX, if_pos hstable] at *
    obtain ⟨k, hk1, hkval⟩ := min_liquidity_usd_form info.path hp
    obtain ⟨j, hj2, hj5, hjval⟩ := max_position_pct_form info.start
    have hXval : ArbCalc.min_liquidity_usd info.path * ArbCalc.max_position_pct info.start
        = ((10000 * k * j : ℤ) : ℚ) := by
      rw [hkval, hjval]
      push_cast
      ring
    have hX20000 : ((20000 : ℤ) : ℚ) ≤ ((10000 * k * j : ℤ) : ℚ) := by
      have : (20000 : ℤ) ≤ 10000 * k * j := by nlinarith
      exact_mod_cast this
    have hy : ArbCalc.pyMax (ArbCalc.pyMin
        (ArbCalc.min_liquidity_usd info.path * ArbCalc.max_position_pct info.start) 50000) 1000
        = ((min (10000 * k * j) 50000 : ℤ) : ℚ) := by
      rw [ArbCalc.pyMax_eq, ArbCalc.pyMin_eq, hXval]
      have hmin : min (((10000 * k * j : ℤ) : ℚ)) 50000 = ((min (10000 * k * j) 50000 : ℤ) : ℚ) := by
        rw [show (50000 : ℚ) = ((50000 : ℤ) : ℚ) by norm_num, ← Int.cast_min]
      rw [hmin]
      refine max_eq_left ?_
      have h1 : ((1000 : ℤ) : ℚ) ≤ ((min (10000 * k * j) 50000 : ℤ) : ℚ) := by
        have : (1000 : ℤ) ≤ min (10000 * k * j) 50000 := by
          refine le_min ?_ (by norm_num)
          nlinarith
        exact_mod_cast this
      exact_mod_cast h1
    rw [hy, quantizeCents_intCast, hXval]
    have : min (10000 * k * j) 50000 ≤ 10000 * k * j := min_le_left _ _
    exact_mod_cast this

/-- Witness for C3's amended statement at a stablecoin-based path. -/
theorem sizing_bounds_amended_witness :
    (ArbCalc.PathInfo.mk "s" [ArbCalc.USDT, ArbCalc.WBNB, ArbCalc.BTCB, ArbCalc.USDT]
        ArbCalc.USDT 3).start = ArbCalc.USDT ∧
    ArbCalc.pathPairs (ArbCalc.PathInfo.mk "s"
        [ArbCalc.USDT, ArbCalc.WBNB, ArbCalc.BTCB, ArbCalc.USDT] ArbCalc.USDT 3).path ≠ [] ∧
    ArbCalc.calculate_optimal_position_size (fun _ _ _ => ArbCalc.PriceData.mk 0 0 false 0)
        (ArbCalc.PathInfo.mk "s" [ArbCalc.USDT, ArbCalc.WBNB, ArbCalc.BTCB, ArbCalc.USDT]
          ArbCalc.USDT 3)
      ≤ ArbCalc.min_liquidity_usd (ArbCalc.PathInfo.mk "s"
          [ArbCalc.USDT, ArbCalc.WBNB, ArbCalc.BTCB, ArbCalc.USDT] ArbCalc.USDT 3).path
        * ArbCalc.max_position_pct (ArbCalc.PathInfo.mk "s"
          [ArbCalc.USDT, ArbCalc.WBNB, ArbCalc.BTCB, ArbCalc.USDT] ArbCalc.USDT 3).start :=
  ⟨rfl, by decide,
    (sizing_bounds_amended (fun _ _ _ => ArbCalc.PriceData.mk 0 0 false 0)
      (ArbCalc.PathInfo.mk "s" [ArbCalc.USDT, ArbCalc.WBNB, ArbCalc.BTCB, ArbCalc.USDT]
        ArbCalc.USDT 3)).2.2 (Or.inl rfl) (by decide)⟩

instance : IsTotal ArbCalc.Opportunity ArbCalc.effGE :=
  ⟨fun a b => le_total (ArbCalc.efficiency b) (ArbCalc.efficiency a)⟩

instance : IsTrans ArbCalc.Opportunity ArbCalc.effGE :=
  ⟨fun _ _ _ h1 h2 => le_trans h2 h1⟩

/-- C8, amended: the ranker's output is the gate's survivors sorted by
efficiency = profit/hops descending; there is no confidence tie-break — the
sort is stable, so equal-efficiency opportunities keep their path-scan
order. -/
theorem ranker_sorted_by_efficiency (entries : List (ArbCalc.PathInfo × ArbCalc.HopResult)) :
    List.Sorted ArbCalc.effGE (ArbCalc.scan_opportunities entries) ∧
    (ArbCalc.scan_opportunities entries).Perm
      ((entries.filter (fun e => ArbCalc.passes_gate e.2)).map
        (fun e => ArbCalc.mkOpportunity e.1 e.2)) :=
  ⟨List.sorted_insertionSort ArbCalc.effGE _, List.perm_insertionSort ArbCalc.effGE _⟩

/-- C8, counterexample: two gate-passing opportunities with equal efficiency
where the lower-confidence one was scanned first stay in scan order, so the
output does not place the higher-confidence one first on ties. -/
theorem ranker_no_confidence_tiebreak_cex :
    ArbCalc.scan_opportunities
        [(ArbCalc.PathInfo.mk "a" [] ArbCalc.USDT 3, ArbCalc.HopResult.mk 60 (4/5) false 3 3 0),
         (ArbCalc.PathInfo.mk "b" [] ArbCalc.USDT 3, ArbCalc.HopResult.mk 60 (9/10) false 3 3 0)]
      = [ArbCalc.mkOpportunity (ArbCalc.PathInfo.mk "a" [] ArbCalc.USDT 3)
          (ArbCalc.HopResult.mk 60 (4/5) false 3 3 0),
         ArbCalc.mkOpportunity (ArbCalc.PathInfo.mk "b" [] ArbCalc.USDT 3)
          (ArbCalc.HopResult.mk 60 (9/10) false 3 3 0)] ∧
    ArbCalc.efficiency (ArbCalc.mkOpportunity (ArbCalc.PathInfo.mk "a" [] ArbCalc.USDT 3)
        (ArbCalc.HopResult.mk 60 (4/5) false 3 3 0))
      = ArbCalc.efficiency (ArbCalc.mkOpportunity (ArbCalc.PathInfo.mk "b" [] ArbCalc.USDT 3)
        (ArbCalc.HopResult.mk 60 (9/10) false 3 3 0)) ∧
    (ArbCalc.mkOpportunity (ArbCalc.PathInfo.mk "a" [] ArbCalc.USDT 3)
        (ArbCalc.HopResult.mk 60 (4/5) false 3 3 0)).confidence
      < (ArbCalc.mkOpportunity (ArbCalc.PathInfo.mk "b" [] ArbCalc.USDT 3)
        (ArbCalc.HopResult.mk 60 (9/10) false 3 3 0)).confidence := by
  refine ⟨?_, ?_, ?_⟩ <;> with_unfolding_all decide

/-- C7, counterexample: two evaluations identical except for hop count (a
3-hop and a 4-hop cycle whose shared hops carry the same prices and
confidences) both complete with pre-penalty confidence 0; the floor at 0
makes the 4-hop effective confidence equal to the 3-hop one, not strictly
lower. -/
theorem hop_penalty_not_strict_cex :
    let g : ArbCalc.Oracle := fun a b _ =>
      if a = ArbCalc.WBNB ∧ b = ArbCalc.BTCB then ArbCalc.PriceData.mk (10^20) 0 false 3
      else ArbCalc.PriceData.mk (10^20) 1 false 3
    (ArbCalc.calculate_multi_hop_profit g
        (ArbCalc.PathInfo.mk "q"
          [ArbCalc.USDT, ArbCalc.WBNB, ArbCalc.BTCB, ArbCalc.CAKE, ArbCalc.USDT]
          ArbCalc.USDT 4) (some 1)).confidence
      = (ArbCalc.calculate_multi_hop_profit g
        (ArbCalc.PathInfo.mk "p"
          [ArbCalc.USDT, ArbCalc.WBNB, ArbCalc.BTCB, ArbCalc.USDT]
          ArbCalc.USDT 3) (some 1)).confidence ∧
    (ArbCalc.calculate_multi_hop_profit g
        (ArbCalc.PathInfo.mk "p"
          [ArbCalc.USDT, ArbCalc.WBNB, ArbCalc.BTCB, ArbCalc.USDT]
          ArbCalc.USDT 3) (some 1)).confidence = 0 := by
  refine ⟨?_, ?_⟩ <;> with_unfolding_all decide

/-- C7, amended: between two evaluations identical except for the hop count
(4 vs 3), the 4-hop effective confidence is max(0, c - 0.1) against the
3-hop's max(0, c): never higher, and strictly lower exactly when the 3-hop
effective confidence is positive (the subtraction is floored at 0, so two
evaluations whose confidence is already 0 tie). -/
theorem hop_penalty_amended (g : ArbCalc.Oracle) (name : String)
    (path : List String) (start : String) (flash : Option ℚ) :
    (ArbCalc.calculate_multi_hop_profit g (ArbCalc.PathInfo.mk name path start 4) flash).confidence
      ≤ (ArbCalc.calculate_multi_hop_profit g (ArbCalc.PathInfo.mk name path start 3) flash).confidence ∧
    (0 < (ArbCalc.calculate_multi_hop_profit g (ArbCalc.PathInfo.mk name path start 3) flash).confidence →
      (ArbCalc.calculate_multi_hop_profit g (ArbCalc.PathInfo.mk name path start 4) flash).confidence
        < (ArbCalc.calculate_multi_hop_profit g (ArbCalc.PathInfo.mk name path start 3) flash).confidence) := by
  have key : ∀ e : Option (ℚ × Bool × ℚ × List ℕ × ℤ),
      (match e with
        | none => ArbCalc.rejectedResult
        | some (p, r, c, s, f) => ArbCalc.finishResult 4 p r c s f).confidence
        ≤ (match e with
        | none => ArbCalc.rejectedResult
        | some (p, r, c, s, f) => ArbCalc.finishResult 3 p r c s f).confidence ∧
      (0 < (match e with
        | none => ArbCalc.rejectedResult
        | some (p, r, c, s, f) => ArbCalc.finishResult 3 p r c s f).confidence →
        (match e with
        | none => ArbCalc.rejectedResult
        | some (p, r, c, s, f) => ArbCalc.finishResult 4 p r c s f).confidence
          < (match e with
        | none => ArbCalc.rejectedResult
        | some (p, r, c, s, f) => ArbCalc.finishResult 3 p r c s f).confidence) := by
    intro e
    rcases e with _ | ⟨p, r, c, s, f⟩
    · simp [ArbCalc.rejectedResult]
    · simp only [ArbCalc.finishResult, ArbCalc.pyMax_eq]
      have h4 : ((4 : ℕ) : ℚ) - 3 = 1 := by norm_num
      have h3 : ((3 : ℕ) : ℚ) - 3 = 0 := by norm_num
      rw [h4, h3]
      have hpen4 : max (0 : ℚ) 1 * (1/10) = 1/10 := by norm_num
      have hpen3 : max (0 : ℚ) 0 * (1/10) = 0 := by norm_num
      rw [hpen4, hpen3, sub_zero]
      constructor
      · exact max_le_max le_rfl (by linarith)
      · intro hpos
        have hc : 0 < c := by
          by_contra hle
          push_neg at hle
          rw [max_eq_left hle] at hpos
          exact lt_irrefl 0 hpos
        rw [max_eq_right hc.le]
        exact max_lt hc (by linarith)
  cases flash with
  | some a => exact key (ArbCalc.multi_hop_eval g path start a)
  | none => exact key (ArbCalc.multi_hop_eval g path start
      (ArbCalc.calculate_optimal_position_size g (ArbCalc.PathInfo.mk name path start 3)))

/-- Witness for C7's amended statement: with an all-good oracle the 3-hop
confidence is 1 and the 4-hop confidence 0.9, strictly lower. -/
theorem hop_penalty_amended_witness :
    0 < (ArbCalc.calculate_multi_hop_profit (fun _ _ _ => ArbCalc.PriceData.mk (10^20) 1 false 3)
        (ArbCalc.PathInfo.mk "w" [ArbCalc.USDT, ArbCalc.WBNB, ArbCalc.BTCB, ArbCalc.USDT]
          ArbCalc.USDT 3) (some 1)).confidence ∧
    (ArbCalc.calculate_multi_hop_profit (fun _ _ _ => ArbCalc.PriceData.mk (10^20) 1 false 3)
        (ArbCalc.PathInfo.mk "w" [ArbCalc.USDT, ArbCalc.WBNB, ArbCalc.BTCB, ArbCalc.USDT]
          ArbCalc.USDT 4) (some 1)).confidence
      < (ArbCalc.calculate_multi_hop_profit (fun _ _ _ => ArbCalc.PriceData.mk (10^20) 1 false 3)
        (ArbCalc.PathInfo.mk "w" [ArbCalc.USDT, ArbCalc.WBNB, ArbCalc.BTCB, ArbCalc.USDT]
          ArbCalc.USDT 3) (some 1)).confidence :=
  ⟨by with_unfolding_all decide,
    (hop_penalty_amended (fun _ _ _ => ArbCalc.PriceData.mk (10^20) 1 false 3) "w"
      [ArbCalc.USDT, ArbCalc.WBNB, ArbCalc.BTCB, ArbCalc.USDT] ArbCalc.USDT (some 1)).2
      (by with_unfolding_all decide)⟩

/-- C2, counterexample: for the even-count price set {100, 200},
get_price_multi_source returns 200 — the upper of the two middle elements
(index N // 2 of the sorted list) — while the true median is the average
150. -/
theorem median_even_upper_cex :
    (ArbCalc.get_price_multi_source [100, 200]).price = 200 ∧
    specTrueMedianInt [100, 200] = 150 ∧
    ((200 : ℚ) ≠ 150) := by
  refine ⟨by decide, by with_unfolding_all decide, by norm_num⟩

/-- C2, amended: PriceAggregator.get_token_price computes the true median
(sorted ascending, middle element for odd N, average of the two middle
values for even N, duplicates included); get_price_multi_source instead
takes the element at index N // 2 of the sorted valid prices, which is the
true median for odd N but the upper of the two middle values - not their
average - for even N. -/
theorem median_functions_amended :
    (∀ l : List ℚ, Aggregator.get_token_price_median l = specTrueMedian l) ∧
    (∀ raw : List ℤ, (raw.filter (fun p => decide (0 < p))).length % 2 = 1 →
      ((ArbCalc.get_price_multi_source raw).price : ℚ)
        = specTrueMedianInt (raw.filter (fun p => decide (0 < p)))) ∧
    (∀ raw : List ℤ, raw.filter (fun p => decide (0 < p)) ≠ [] →
      (ArbCalc.get_price_multi_source raw).price
        = ((raw.filter (fun p => decide (0 < p))).mergeSort (fun a b => decide (a ≤ b))).getD
            ((raw.filter (fun p => decide (0 < p))).length / 2) 0) := by
  refine ⟨?_, ?_, ?_⟩
  · intro l
    unfold Aggregator.get_token_price_median specTrueMedian Aggregator.pySortQ
    rw [insertionSort_eq_mergeSort_rat]
  · intro raw hodd
    have hne : raw.filter (fun p => decide (0 < p)) ≠ [] := by
      intro h
      rw [h] at hodd
      simp at hodd
    unfold ArbCalc.get_price_multi_source
    rw [if_neg hne]
    unfold specTrueMedianInt ArbCalc.multi_median ArbCalc.pySort
    rw [insertionSort_eq_mergeSort_int, if_pos hodd]
  · intro raw hne
    unfold ArbCalc.get_price_multi_source
    rw [if_neg hne]
    unfold ArbCalc.multi_median ArbCalc.pySort
    rw [insertionSort_eq_mergeSort_int]

/-- Witness for C2's amended statement: odd and even counts with duplicates. -/
theorem median_functions_amended_witness :
    (Aggregator.get_token_price_median [3, 1] = specTrueMedian [3, 1] ∧
      specTrueMedian [3, 1] = 2) ∧
    ((([99, 101, 100] : List ℤ).filter (fun p => decide (0 < p))).length % 2 = 1 ∧
      ((ArbCalc.get_price_multi_source [99, 101, 100]).price : ℚ)
        = specTrueMedianInt (([99, 101, 100] : List ℤ).filter (fun p => decide (0 < p)))) ∧
    ((([7, 7, 2, 9] : List ℤ).filter (fun p => decide (0 < p))) ≠ [] ∧
      (ArbCalc.get_price_multi_source [7, 7, 2, 9]).price
        = ((([7, 7, 2, 9] : List ℤ).filter (fun p => decide (0 < p))).mergeSort
            (fun a b => decide (a ≤ b))).getD
            ((([7, 7, 2, 9] : List ℤ).filter (fun p => decide (0 < p))).length / 2) 0) :=
  ⟨⟨median_functions_amended.1 [3, 1], by with_unfolding_all decide⟩,
    ⟨by decide, median_functions_amended.2.1 [99, 101, 100] (by decide)⟩,
    ⟨by decide, median_functions_amended.2.2 [7, 7, 2, 9] (by decide)⟩⟩

theorem countP_cons_le {p : ℤ → Bool} (a : ℤ) (t : List ℤ) :
    List.countP p (a :: t) ≤ List.countP p t + 1 := by
  rw [List.countP_cons]
  split <;> omega

theorem countP_le_cons {p : ℤ → Bool} (a : ℤ) (t : List ℤ) :
    List.countP p t ≤ List.countP p (a :: t) := by
  rw [List.countP_cons]
  split <;> omega

theorem sorted_countP_lt_le (s : List ℤ) (hs : s.Sorted (· ≤ ·)) :
    ∀ (k : ℕ) (hk : k < s.length),
      s.countP (fun x => decide (x < s.get ⟨k, hk⟩)) ≤ k := by
  induction s with
  | nil => intro k hk; simp at hk
  | cons a t IH =>
    intro k hk
    cases k with
    | zero =>
      have hget : (a :: t).get ⟨0, hk⟩ = a := rfl
      rw [hget, List.countP_cons]
      have hz : List.countP (fun x => decide (x < a)) t = 0 := by
        rw [List.countP_eq_zero]
        intro x hx
        simpa using not_lt.mpr (List.rel_of_sorted_cons hs x hx)
      have haa : decide (a < a) = false := by simp
      rw [hz, haa]
      simp
    | succ k =>
      have hk' : k < t.length := by simpa using Nat.lt_of_succ_lt_succ hk
      have hget : (a :: t).get ⟨k + 1, hk⟩ = t.get ⟨k, hk'⟩ := rfl
      rw [hget]
      have ht := IH hs.of_cons k hk'
      have hc := @countP_cons_le (fun x => decide (x < t.get ⟨k, hk'⟩)) a t
      omega

theorem sorted_lt_countP_le (s : List ℤ) (hs : s.Sorted (· ≤ ·)) :
    ∀ (k : ℕ) (hk : k < s.length),
      k < s.countP (fun x => decide (x ≤ s.get ⟨k, hk⟩)) := by
  induction s with
  | nil => intro k hk; simp at hk
  | cons a t IH =>
    intro k hk
    cases k with
    | zero =>
      have hget : (a :: t).get ⟨0, hk⟩ = a := rfl
      rw [hget, List.countP_cons]
      have haa : decide (a ≤ a) = true := by simp
      rw [haa]
      simp
    | succ k =>
      have hk' : k < t.length := by simpa using Nat.lt_of_succ_lt_succ hk
      have hget : (a :: t).get ⟨k + 1, hk⟩ = t.get ⟨k, hk'⟩ := rfl
      rw [hget, List.countP_cons]
      have ht := IH hs.of_cons k hk'
      have ha : a ≤ t.get ⟨k, hk'⟩ :=
        List.rel_of_sorted_cons hs _ (List.get_mem t k hk')
      have hda : decide (a ≤ t.get ⟨k, hk'⟩) = true := decide_eq_true ha
      rw [hda]
      simp only [if_true]
      omega

theorem sorted_get_eq_of_counts (s : List ℤ) (hs : s.Sorted (· ≤ ·)) :
    ∀ (k : ℕ) (hk : k < s.length) (v : ℤ),
      s.countP (fun x => decide (x < v)) ≤ k →
      k < s.countP (fun x => decide (x ≤ v)) →
      s.get ⟨k, hk⟩ = v := by
  induction s with
  | nil => intro k hk; simp at hk
  | cons a t IH =>
    intro k hk v h1 h2
    cases k with
    | zero =>
      have hget : (a :: t).get ⟨0, hk⟩ = a := rfl
      rw [hget]
      have hav : ¬ (a < v) := by
        intro hav
        have hda : decide (a < v) = true := decide_eq_true hav
        rw [List.countP_cons, hda] at h1
        simp at h1
      have h0 : 0 < List.countP (fun x => decide (x ≤ v)) (a :: t) := h2
      obtain ⟨x, hx, hxv⟩ := List.countP_pos_iff.mp h0
      simp only [decide_eq_true_eq] at hxv
      rcases List.mem_cons.mp hx with rfl | hxt
      · exact le_antisymm hxv (not_lt.mp hav)
      · have hax := List.rel_of_sorted_cons hs x hxt
        exact le_antisymm (le_trans hax hxv) (not_lt.mp hav)
    | succ k =>
      have hk' : k < t.length := by simpa using Nat.lt_of_succ_lt_succ hk
      have hget : (a :: t).get ⟨k + 1, hk⟩ = t.get ⟨k, hk'⟩ := rfl
      rw [hget]
      refine IH hs.of_cons k hk' v ?_ ?_
      · by_cases hav : a < v
        · have hda : decide (a < v) = true := decide_eq_true hav
          rw [List.countP_cons, hda] at h1
          simp only [if_true] at h1
          omega
        · have hz : List.countP (fun x => decide (x < v)) t = 0 := by
            rw [List.countP_eq_zero]
            intro x hx
            have hax := List.rel_of_sorted_cons hs x hx
            simp only [decide_eq_true_eq, not_lt]
            exact le_trans (not_lt.mp hav) hax
          omega
      · have hle := @countP_cons_le (fun x => decide (x ≤ v)) a t
        omega

theorem multi_median_mem (l : List ℤ) (h : l ≠ []) : ArbCalc.multi_median l ∈ l := by
  unfold ArbCalc.multi_median ArbCalc.pySort
  have hpos : 0 < l.length := List.length_pos.mpr h
  have hidx : l.length / 2 < (l.insertionSort (· ≤ ·)).length := by
    rw [List.length_insertionSort]
    exact Nat.div_lt_self hpos one_lt_two
  rw [List.getD_eq_getElem _ _ hidx]
  exact (List.perm_insertionSort _ l).mem_iff.mp (List.getElem_mem hidx)

theorem multi_median_insert (l : List ℤ) (h : l ≠ []) :
    ArbCalc.multi_median (ArbCalc.multi_median l :: l) = ArbCalc.multi_median l := by
  have hpos : 0 < l.length := List.length_pos.mpr h
  have hsorted : (ArbCalc.pySort l).Sorted (· ≤ ·) := List.sorted_insertionSort _ l
  have hsperm : (ArbCalc.pySort l).Perm l := List.perm_insertionSort _ l
  have hidx : l.length / 2 < (ArbCalc.pySort l).length := by
    unfold ArbCalc.pySort
    rw [List.length_insertionSort]
    exact Nat.div_lt_self hpos one_lt_two
  have hget : (ArbCalc.pySort l).get ⟨l.length / 2, hidx⟩ = ArbCalc.multi_median l := by
    unfold ArbCalc.multi_median
    rw [List.getD_eq_getElem _ _ hidx]
    exact (List.get_eq_getElem _ _).symm ▸ rfl
  have c1 : l.countP (fun x => decide (x < ArbCalc.multi_median l)) ≤ l.length / 2 := by
    rw [← hsperm.countP_eq]
    have hcl := sorted_countP_lt_le (ArbCalc.pySort l) hsorted (l.length / 2) hidx
    rwa [hget] at hcl
  have c2 : l.length / 2 < l.countP (fun x => decide (x ≤ ArbCalc.multi_median l)) := by
    rw [← hsperm.countP_eq]
    have hcl := sorted_lt_countP_le (ArbCalc.pySort l) hsorted (l.length / 2) hidx
    rwa [hget] at hcl
  have hs2sorted : (ArbCalc.pySort (ArbCalc.multi_median l :: l)).Sorted (· ≤ ·) :=
    List.sorted_insertionSort _ _
  have hs2perm : (ArbCalc.pySort (ArbCalc.multi_median l :: l)).Perm
      (ArbCalc.multi_median l :: l) := List.perm_insertionSort _ _
  have hs2len : (ArbCalc.pySort (ArbCalc.multi_median l :: l)).length = l.length + 1 := by
    unfold ArbCalc.pySort
    rw [List.length_insertionSort]
    rfl
  have hidx2 : (l.length + 1) / 2 < (ArbCalc.pySort (ArbCalc.multi_median l :: l)).length := by
    rw [hs2len]
    omega
  have d1 : (ArbCalc.pySort (ArbCalc.multi_median l :: l)).countP
      (fun x => decide (x < ArbCalc.multi_median l)) ≤ (l.length + 1) / 2 := by
    rw [hs2perm.countP_eq, List.countP_cons]
    have hmm : decide (ArbCalc.multi_median l < ArbCalc.multi_median l) = false := by simp
    rw [hmm]
    simp only [Bool.false_eq_true, if_false, Nat.add_zero]
    omega
  have d2 : (l.length + 1) / 2 < (ArbCalc.pySort (ArbCalc.multi_median l :: l)).countP
      (fun x => decide (x ≤ ArbCalc.multi_median l)) := by
    rw [hs2perm.countP_eq, List.countP_cons]
    have hmm : decide (ArbCalc.multi_median l ≤ ArbCalc.multi_median l) = true := by simp
    rw [hmm]
    simp only [if_true]
    omega
  have hfinal := sorted_get_eq_of_counts _ hs2sorted ((l.length + 1) / 2) hidx2
    (ArbCalc.multi_median l) d1 d2
  show (ArbCalc.pySort (ArbCalc.multi_median l :: l)).getD ((l.length + 1) / 2) 0
    = ArbCalc.multi_median l
  rw [List.getD_eq_getElem _ _ hidx2]
  rw [List.get_eq_getElem] at hfinal
  exact hfinal

theorem max_deviation_insert (l : List ℤ) (m : ℤ) :
    ArbCalc.max_deviation (m :: l) m = ArbCalc.max_deviation l m := by
  unfold ArbCalc.max_deviation
  simp only [List.foldl_cons]
  have hdev : ArbCalc.deviationFrom m m = 0 := by
    unfold ArbCalc.deviationFrom ArbCalc.pyAbs
    simp
  rw [hdev]
  have hmx : ArbCalc.pyMax 0 0 = 0 := by
    unfold ArbCalc.pyMax
    simp
  rw [hmx]

theorem multi_source_confidence_eq (raw : List ℤ)
    (hne : raw.filter (fun p => decide (0 < p)) ≠ []) :
    (ArbCalc.get_price_multi_source
        (ArbCalc.multi_median (raw.filter (fun p => decide (0 < p))) :: raw)).confidence
      = (ArbCalc.get_price_multi_source raw).confidence := by
  have hmpos : 0 < ArbCalc.multi_median (raw.filter (fun p => decide (0 < p))) := by
    have hmem := multi_median_mem (raw.filter (fun p => decide (0 < p))) hne
    have := (List.mem_filter.mp hmem).2
    simpa using this
  have hfilter : (ArbCalc.multi_median (raw.filter (fun p => decide (0 < p))) :: raw).filter
      (fun p => decide (0 < p))
      = ArbCalc.multi_median (raw.filter (fun p => decide (0 < p))) :: raw.filter (fun p => decide (0 < p)) := by
    rw [List.filter_cons]
    simp [hmpos]
  unfold ArbCalc.get_price_multi_source
  rw [hfilter, if_neg (List.cons_ne_nil _ _), if_neg hne]
  simp only
  rw [multi_median_insert _ hne, max_deviation_insert]

theorem multi_source_confidence_anti (raw1 raw2 : List ℤ)
    (h1 : raw1.filter (fun p => decide (0 < p)) ≠ [])
    (h2 : raw2.filter (fun p => decide (0 < p)) ≠ [])
    (hdev : ArbCalc.max_deviation (raw1.filter (fun p => decide (0 < p)))
        (ArbCalc.multi_median (raw1.filter (fun p => decide (0 < p))))
      ≤ ArbCalc.max_deviation (raw2.filter (fun p => decide (0 < p)))
        (ArbCalc.multi_median (raw2.filter (fun p => decide (0 < p))))) :
    (ArbCalc.get_price_multi_source raw2).confidence
      ≤ (ArbCalc.get_price_multi_source raw1).confidence := by
  unfold ArbCalc.get_price_multi_source
  rw [if_neg h1, if_neg h2]
  simp only [ArbCalc.pyMin_eq]
  have := min_le_min hdev (le_refl (1 : ℚ))
  linarith

/-- Tier selection of _calculate_confidence as a function of the source count
and the spread value (the embedding factors through this). -/
def ladderAux (n : ℕ) (spread : ℚ) (c : ℕ) : Aggregator.ConfLevel :=
  if n < c then .low
  else if spread ≤ 1/100 ∧ 4 ≤ n then .very_high
  else if spread ≤ 2/100 ∧ 3 ≤ n then .high
  else if spread ≤ 5/100 ∧ 2 ≤ n then .medium
  else .low

theorem calculate_confidence_eq_ladderAux (l : List ℚ) (p : ℚ) (c : ℕ) :
    Aggregator.calculate_confidence l p c = ladderAux l.length (Aggregator.spreadOf l p) c := rfl

theorem ladderAux_mono_count {n nn : ℕ} (s : ℚ) (c : ℕ) (h : n ≤ nn) :
    Aggregator.confRank (ladderAux n s c) ≤ Aggregator.confRank (ladderAux nn s c) := by
  unfold ladderAux
  split_ifs <;> simp_all [Aggregator.confRank] <;> omega

theorem ladderAux_anti_spread (n c : ℕ) {s ss : ℚ} (h : s ≤ ss) :
    Aggregator.confRank (ladderAux n ss c) ≤ Aggregator.confRank (ladderAux n s c) := by
  unfold ladderAux
  split_ifs <;> simp_all [Aggregator.confRank] <;> first | omega | linarith

theorem foldl_pyMax_eq_foldl_max (l : List ℚ) (a : ℚ) :
    l.foldl ArbCalc.pyMax a = l.foldl max a := by
  induction l generalizing a with
  | nil => rfl
  | cons x t IH =>
    simp only [List.foldl_cons, ArbCalc.pyMax_eq]
    exact IH _

theorem foldl_pyMin_eq_foldl_min (l : List ℚ) (a : ℚ) :
    l.foldl ArbCalc.pyMin a = l.foldl min a := by
  induction l generalizing a with
  | nil => rfl
  | cons x t IH =>
    simp only [List.foldl_cons, ArbCalc.pyMin_eq]
    exact IH _

theorem foldl_max_comm (l : List ℚ) (a b : ℚ) :
    l.foldl max (max a b) = max a (l.foldl max b) := by
  induction l generalizing b with
  | nil => rfl
  | cons x t IH =>
    simp only [List.foldl_cons]
    rw [max_assoc]
    exact IH _

theorem foldl_min_comm (l : List ℚ) (a b : ℚ) :
    l.foldl min (min a b) = min a (l.foldl min b) := by
  induction l generalizing b with
  | nil => rfl
  | cons x t IH =>
    simp only [List.foldl_cons]
    rw [min_assoc]
    exact IH _

theorem listMaxQ_cons (x : ℚ) (l : List ℚ) (h : l ≠ []) :
    Aggregator.listMaxQ (x :: l) = max x (Aggregator.listMaxQ l) := by
  rcases l with _ | ⟨y, t⟩
  · exact absurd rfl h
  · show (y :: t).foldl ArbCalc.pyMax x = max x (t.foldl ArbCalc.pyMax y)
    rw [foldl_pyMax_eq_foldl_max, foldl_pyMax_eq_foldl_max]
    simp only [List.foldl_cons]
    exact foldl_max_comm t x y

theorem listMinQ_cons (x : ℚ) (l : List ℚ) (h : l ≠ []) :
    Aggregator.listMinQ (x :: l) = min x (Aggregator.listMinQ l) := by
  rcases l with _ | ⟨y, t⟩
  · exact absurd rfl h
  · show (y :: t).foldl ArbCalc.pyMin x = min x (t.foldl ArbCalc.pyMin y)
    rw [foldl_pyMin_eq_foldl_min, foldl_pyMin_eq_foldl_min]
    simp only [List.foldl_cons]
    exact foldl_min_comm t x y

theorem le_foldl_max (t : List ℚ) (b : ℚ) : b ≤ t.foldl max b := by
  induction t generalizing b with
  | nil => exact le_rfl
  | cons c t IH =>
    simp only [List.foldl_cons]
    exact le_trans (le_max_left b c) (IH _)

theorem foldl_min_le (t : List ℚ) (b : ℚ) : t.foldl min b ≤ b := by
  induction t generalizing b with
  | nil => exact le_rfl
  | cons c t IH =>
    simp only [List.foldl_cons]
    exact le_trans (IH _) (min_le_left b c)

theorem le_listMaxQ (l : List ℚ) (x : ℚ) (hx : x ∈ l) : x ≤ Aggregator.listMaxQ l := by
  induction l with
  | nil => simp at hx
  | cons a t IH =>
    rcases List.mem_cons.mp hx with rfl | hxt
    · rcases t with _ | ⟨y, u⟩
      · exact le_rfl
      · show x ≤ (y :: u).foldl ArbCalc.pyMax x
        rw [foldl_pyMax_eq_foldl_max]
        exact le_foldl_max _ _
    · have ht : t ≠ [] := List.ne_nil_of_mem hxt
      rw [listMaxQ_cons a t ht]
      exact le_trans (IH hxt) (le_max_right _ _)

theorem listMinQ_le (l : List ℚ) (x : ℚ) (hx : x ∈ l) : Aggregator.listMinQ l ≤ x := by
  induction l with
  | nil => simp at hx
  | cons a t IH =>
    rcases List.mem_cons.mp hx with rfl | hxt
    · rcases t with _ | ⟨y, u⟩
      · exact le_rfl
      · show (y :: u).foldl ArbCalc.pyMin x ≤ x
        rw [foldl_pyMin_eq_foldl_min]
        exact foldl_min_le _ _
    · have ht : t ≠ [] := List.ne_nil_of_mem hxt
      rw [listMinQ_cons a t ht]
      exact le_trans (min_le_right _ _) (IH hxt)

theorem get_token_price_median_between (l : List ℚ) (h : l ≠ []) :
    Aggregator.listMinQ l ≤ Aggregator.get_token_price_median l ∧
    Aggregator.get_token_price_median l ≤ Aggregator.listMaxQ l := by
  unfold Aggregator.get_token_price_median Aggregator.pySortQ
  have hpos : 0 < l.length := List.length_pos.mpr h
  have hperm : (l.insertionSort (· ≤ ·)).Perm l := List.perm_insertionSort _ l
  have hslen : (l.insertionSort (· ≤ ·)).length = l.length := List.length_insertionSort _ l
  by_cases hodd : l.length % 2 = 1
  · rw [if_pos hodd]
    have hidx : l.length / 2 < (l.insertionSort (· ≤ ·)).length := by
      rw [hslen]
      exact Nat.div_lt_self hpos one_lt_two
    rw [List.getD_eq_getElem _ _ hidx]
    have hmem : (l.insertionSort (· ≤ ·))[l.length / 2] ∈ l :=
      hperm.mem_iff.mp (List.getElem_mem hidx)
    exact ⟨listMinQ_le _ _ hmem, le_listMaxQ _ _ hmem⟩
  · rw [if_neg hodd]
    have hge2 : 2 ≤ l.length := by omega
    have hidx : l.length / 2 < (l.insertionSort (· ≤ ·)).length := by rw [hslen]; omega
    have hidx1 : l.length / 2 - 1 < (l.insertionSort (· ≤ ·)).length := by rw [hslen]; omega
    rw [List.getD_eq_getElem _ _ hidx1, List.getD_eq_getElem _ _ hidx]
    have hm1 : (l.insertionSort (· ≤ ·))[l.length / 2 - 1] ∈ l :=
      hperm.mem_iff.mp (List.getElem_mem hidx1)
    have hm2 : (l.insertionSort (· ≤ ·))[l.length / 2] ∈ l :=
      hperm.mem_iff.mp (List.getElem_mem hidx)
    constructor
    · have ha := listMinQ_le _ _ hm1
      have hb := listMinQ_le _ _ hm2
      linarith
    · have ha := le_listMaxQ _ _ hm1
      have hb := le_listMaxQ _ _ hm2
      linarith

theorem ladder_add_median (l : List ℚ) (p : ℚ) (c : ℕ) (h : l ≠ []) :
    Aggregator.confRank (Aggregator.calculate_confidence l p c)
      ≤ Aggregator.confRank (Aggregator.calculate_confidence
          (Aggregator.get_token_price_median l :: l) p c) := by
  rw [calculate_confidence_eq_ladderAux, calculate_confidence_eq_ladderAux]
  have hb := get_token_price_median_between l h
  have hmax : Aggregator.listMaxQ (Aggregator.get_token_price_median l :: l)
      = Aggregator.listMaxQ l := by
    rw [listMaxQ_cons _ _ h]
    exact max_eq_right hb.2
  have hmin : Aggregator.listMinQ (Aggregator.get_token_price_median l :: l)
      = Aggregator.listMinQ l := by
    rw [listMinQ_cons _ _ h]
    exact min_eq_right hb.1
  have hspread : Aggregator.spreadOf (Aggregator.get_token_price_median l :: l) p
      = Aggregator.spreadOf l p := by
    unfold Aggregator.spreadOf
    rw [hmax, hmin]
  rw [hspread]
  have hlen : (Aggregator.get_token_price_median l :: l).length = l.length + 1 := rfl
  rw [hlen]
  exact ladderAux_mono_count _ _ (Nat.le_succ _)

/-- C6: the confidence computations are monotonic.  For
get_price_multi_source: adding one more source whose price equals the
current median leaves the median and the maximal deviation unchanged, so the
confidence never drops; and between any two price sets, a larger maximal
deviation (wider spread) never yields a higher confidence.  For
_calculate_confidence: adding a source at the current median keeps the
spread and raises the count, which never lowers the tier; and for a fixed
source count a larger spread never yields a higher tier. -/
theorem confidence_monotonic :
    (∀ raw : List ℤ, raw.filter (fun p => decide (0 < p)) ≠ [] →
      (ArbCalc.get_price_multi_source raw).confidence
        ≤ (ArbCalc.get_price_multi_source
            ((ArbCalc.get_price_multi_source raw).price :: raw)).confidence) ∧
    (∀ raw1 raw2 : List ℤ, raw1.filter (fun p => decide (0 < p)) ≠ [] →
      raw2.filter (fun p => decide (0 < p)) ≠ [] →
      ArbCalc.max_deviation (raw1.filter (fun p => decide (0 < p)))
          (ArbCalc.multi_median (raw1.filter (fun p => decide (0 < p))))
        ≤ ArbCalc.max_deviation (raw2.filter (fun p => decide (0 < p)))
          (ArbCalc.multi_median (raw2.filter (fun p => decide (0 < p)))) →
      (ArbCalc.get_price_multi_source raw2).confidence
        ≤ (ArbCalc.get_price_multi_source raw1).confidence) ∧
    (∀ (l : List ℚ) (p : ℚ) (c : ℕ), l ≠ [] →
      Aggregator.confRank (Aggregator.calculate_confidence l p c)
        ≤ Aggregator.confRank (Aggregator.calculate_confidence
            (Aggregator.get_token_price_median l :: l) p c)) ∧
    (∀ (l1 l2 : List ℚ) (p1 p2 : ℚ) (c : ℕ), l1.length = l2.length →
      Aggregator.spreadOf l1 p1 ≤ Aggregator.spreadOf l2 p2 →
      Aggregator.confRank (Aggregator.calculate_confidence l2 p2 c)
        ≤ Aggregator.confRank (Aggregator.calculate_confidence l1 p1 c)) := by
  refine ⟨?_, multi_source_confidence_anti, ladder_add_median, ?_⟩
  · intro raw hne
    have hprice : (ArbCalc.get_price_multi_source raw).price
        = ArbCalc.multi_median (raw.filter (fun p => decide (0 < p))) := by
      unfold ArbCalc.get_price_multi_source
      rw [if_neg hne]
    rw [hprice, multi_source_confidence_eq raw hne]
  · intro l1 l2 p1 p2 c hlen hsp
    rw [calculate_confidence_eq_ladderAux, calculate_confidence_eq_ladderAux, ← hlen]
    exact ladderAux_anti_spread _ _ hsp

/-- Witness for C6 at concrete price sets. -/
theorem confidence_monotonic_witness :
    ((ArbCalc.get_price_multi_source [100, 200]).confidence
      ≤ (ArbCalc.get_price_multi_source
          ((ArbCalc.get_price_multi_source [100, 200]).price :: [100, 200])).confidence) ∧
    ((ArbCalc.get_price_multi_source [100, 200]).confidence
      ≤ (ArbCalc.get_price_multi_source [100, 100]).confidence) ∧
    (Aggregator.confRank (Aggregator.calculate_confidence [1, 3] 2 1)
      ≤ Aggregator.confRank (Aggregator.calculate_confidence
          (Aggregator.get_token_price_median [1, 3] :: [1, 3]) 2 1)) ∧
    (Aggregator.confRank (Aggregator.calculate_confidence [1, 3] 1 1)
      ≤ Aggregator.confRank (Aggregator.calculate_confidence [1, 2] 1 1)) :=
  ⟨confidence_monotonic.1 [100, 200] (by decide),
    confidence_monotonic.2.1 [100, 100] [100, 200] (by decide) (by decide)
      (by with_unfolding_all decide),
    confidence_monotonic.2.2.1 [1, 3] 2 1 (List.cons_ne_nil _ _),
    confidence_monotonic.2.2.2 [1, 2] [1, 3] 1 1 1 rfl (by with_unfolding_all decide)⟩
